import Mathlib

/-!
Verification of the rayox ray tracer (src/main.rs, src/vec.rs).

Shallow embedding: `f32` scalars are modelled as real numbers, `f32::sqrt`
as `Real.sqrt`, `f32::INFINITY` in the nearest-hit accumulator as the
`none` case of an `Option` (every real distance compares below infinity).
`Real.sqrt` of a negative argument is 0 where `f32::sqrt` would give NaN;
that point is reachable only through the unguarded refraction
discriminant `k`, which no theorem below touches.
Definitions follow the Rust source; definitions whose name contains
`Spec`, `Claim` or `Amended` instead follow the wording of the
specification or of a claim, for comparison with the source-derived ones.
-/

set_option maxHeartbeats 1000000

noncomputable section

/-- `Vec3<f32>` from src/vec.rs, with `f32` modelled as `ℝ`. -/
structure Vec3 where
  x : ℝ
  y : ℝ
  z : ℝ

namespace Vec3

/-- `Vec3::new_uniform` from src/vec.rs. -/
def new_uniform (a : ℝ) : Vec3 := ⟨a, a, a⟩

/-- `Vec3::dot_product` from src/vec.rs. -/
def dot_product (a b : Vec3) : ℝ := a.x * b.x + a.y * b.y + a.z * b.z

/-- `Vec3::sqr_magnitude` from src/vec.rs. -/
def sqr_magnitude (v : Vec3) : ℝ := v.x * v.x + v.y * v.y + v.z * v.z

/-- `impl Add for Vec3` from src/vec.rs. -/
instance : Add Vec3 := ⟨fun a b => ⟨a.x + b.x, a.y + b.y, a.z + b.z⟩⟩

/-- `impl Sub for Vec3` from src/vec.rs. -/
instance : Sub Vec3 := ⟨fun a b => ⟨a.x - b.x, a.y - b.y, a.z - b.z⟩⟩

/-- `impl Neg for Vec3` from src/vec.rs. -/
instance : Neg Vec3 := ⟨fun a => ⟨-a.x, -a.y, -a.z⟩⟩

/-- `impl Mul for Vec3` (component-wise) from src/vec.rs. -/
instance : Mul Vec3 := ⟨fun a b => ⟨a.x * b.x, a.y * b.y, a.z * b.z⟩⟩

/-- `impl Mul<T> for Vec3` (scalar) from src/vec.rs. -/
instance : HMul Vec3 ℝ Vec3 := ⟨fun a r => ⟨a.x * r, a.y * r, a.z * r⟩⟩

/-- `Vec3<f32>::normalized` from src/vec.rs. -/
def normalized (v : Vec3) : Vec3 :=
  if v.sqr_magnitude > 0 then
    v * ((1 : ℝ) / Real.sqrt v.sqr_magnitude)
  else
    v

end Vec3

/-- `Sphere` from src/main.rs. -/
structure Sphere where
  center : Vec3
  radius : ℝ
  sqr_radius : ℝ
  surface_color : Vec3
  emission : Vec3
  transparency : ℝ
  reflection : ℝ

/-- `Ray` from src/main.rs. -/
structure Ray where
  origin : Vec3
  direction : Vec3

/-- `Sphere::intersect` from src/main.rs (lines 30-48): returns the two
distances along the ray, or `none` when the center projects behind the
origin (`tca < 0`) or the perpendicular squared distance exceeds the
squared radius. -/
def Sphere.intersect (s : Sphere) (ray : Ray) : Option (ℝ × ℝ) :=
  let l : Vec3 := s.center - ray.origin
  let tca : ℝ := l.dot_product ray.direction
  if tca < 0 then
    none
  else
    let d2 : ℝ := l.dot_product l - tca * tca
    if d2 > s.sqr_radius then
      none
    else
      let thc : ℝ := Real.sqrt (s.sqr_radius - d2)
      some (tca - thc, tca + thc)

/-- `mix` from src/main.rs (line 51). -/
def mix (a b m : ℝ) : ℝ := b * m + a * (1 - m)

/-- `MAX_RAY_DEPTH` from src/main.rs (line 55). -/
def MAX_RAY_DEPTH : ℕ := 5

/-- One step of the nearest-hit loop of `trace` (src/main.rs lines 60-71).
The accumulator is `none` while the stored distance is still
`f32::INFINITY` (every real candidate distance is below infinity, so a
candidate always replaces the initial accumulator). -/
def nearStep (ray : Ray) (acc : Option (ℝ × Sphere)) (sphere : Sphere) :
    Option (ℝ × Sphere) :=
  match sphere.intersect ray with
  | none => acc
  | some (t0, t1) =>
    let te : ℝ := if t0 < 0 then t1 else t0
    match acc with
    | none => some (te, sphere)
    | some (tn, sn) => if te < tn then some (te, sphere) else some (tn, sn)

/-- The nearest-hit search of `trace` (src/main.rs lines 59-71). -/
def traceNear (ray : Ray) (spheres : List Sphere) : Option (ℝ × Sphere) :=
  spheres.foldl (nearStep ray) none

/-- The inner occluder loop of the diffuse branch (src/main.rs lines
141-149): true when some sphere with enumeration index `j` different from
the light's index `i` intersects the shadow ray (the source breaks at the
first such sphere; `any` has the same value). -/
def shadowHit (spheres : List Sphere) (i : ℕ) (light_ray : Ray) : Bool :=
  spheres.enum.any fun js => (js.1 != i) && (js.2.intersect light_ray).isSome

/-- The body of the outer light loop of the diffuse branch (src/main.rs
lines 132-155), in `foldl` form over the enumerated scene. -/
def diffuseLight (spheres : List Sphere) (near_sphere : Sphere)
    (hit_point hit_normal : Vec3) (acc : Vec3) (is : ℕ × Sphere) : Vec3 :=
  if is.2.emission.x > 0 then
    let light_dir : Vec3 := (is.2.center - hit_point).normalized
    let light_origin : Vec3 := hit_point + hit_normal * (1e-4 : ℝ)
    let light_ray : Ray := ⟨light_origin, light_dir⟩
    let transmission : ℝ := if shadowHit spheres is.1 light_ray then 0 else 1
    acc + near_sphere.surface_color * Vec3.new_uniform transmission *
      max 0 (hit_normal.dot_product light_dir) * is.2.emission
  else
    acc

/-- The diffuse/lighting branch of `trace` (src/main.rs lines 130-156). -/
def diffuseColor (spheres : List Sphere) (near_sphere : Sphere)
    (hit_point hit_normal : Vec3) : Vec3 :=
  spheres.enum.foldl (diffuseLight spheres near_sphere hit_point hit_normal)
    (Vec3.new_uniform 0)

/-- `trace` from src/main.rs (lines 57-160). Recursion is on
`MAX_RAY_DEPTH - depth`, which decreases because the specular branch is
guarded by `depth < MAX_RAY_DEPTH` and recurses at `depth + 1`. -/
def trace (ray : Ray) (spheres : List Sphere) (depth : ℕ) : Vec3 :=
  match traceNear ray spheres with
  | none => Vec3.new_uniform 2
  | some (tnear, near_sphere) =>
    let hit_point : Vec3 := ray.origin + ray.direction * tnear
    let n0 : Vec3 := (hit_point - near_sphere.center).normalized
    let bias : ℝ := 1e-4
    let hit_normal : Vec3 :=
      if ray.direction.dot_product n0 > 0 then -n0 else n0
    let is_inside : Prop := ray.direction.dot_product n0 > 0
    let surface_color : Vec3 :=
      if h : depth < MAX_RAY_DEPTH ∧
          (near_sphere.transparency > 0 ∨ near_sphere.reflection > 0) then
        let facing : ℝ := -(ray.direction.dot_product hit_normal)
        let fresnel_effect : ℝ := mix ((1 - facing) ^ 3) 1 0.1
        let reflect_dir : Vec3 :=
          (ray.direction -
            hit_normal * (2 : ℝ) * (ray.direction.dot_product hit_normal)).normalized
        let reflect_origin : Vec3 := hit_point + hit_normal * bias
        let reflection : Vec3 :=
          trace ⟨reflect_origin, reflect_dir⟩ spheres (depth + 1)
        let refraction : Vec3 :=
          if near_sphere.transparency > 0 then
            let ior : ℝ := 1.1
            let eta : ℝ := if is_inside then ior else 1 / ior
            let cosi : ℝ := -(hit_normal.dot_product ray.direction)
            let k : ℝ := 1 - eta * eta * (1 - cosi * cosi)
            let refract_dir : Vec3 :=
              (ray.direction * eta +
                hit_normal * (eta * cosi - Real.sqrt k)).normalized
            let refract_origin : Vec3 := hit_point - hit_normal * bias
            trace ⟨refract_origin, refract_dir⟩ spheres (depth + 1)
          else
            Vec3.new_uniform 0
        (reflection * fresnel_effect +
          refraction * ((1 - fresnel_effect) * near_sphere.transparency)) *
          near_sphere.surface_color
      else
        diffuseColor spheres near_sphere hit_point hit_normal
    surface_color + near_sphere.emission
termination_by MAX_RAY_DEPTH - depth
decreasing_by
  all_goals exact Nat.sub_lt_sub_left h.1 (Nat.lt_succ_self depth)

/-- `WIDTH` from `render` in src/main.rs (line 163). -/
def WIDTH : ℕ := 640

/-- `HEIGHT` from `render` in src/main.rs (line 164). -/
def HEIGHT : ℕ := 480

/-- The pixel coordinates `(x, y)` visited by the loops of `render`
(src/main.rs lines 173-174): `for y in 0..HEIGHT { for x in 0..HEIGHT }`
— the inner loop bound in the source is `HEIGHT`, not `WIDTH`. -/
def renderPixelPairs : List (ℕ × ℕ) :=
  (List.range HEIGHT).flatMap fun y => (List.range HEIGHT).map fun x => (x, y)

/-- The flat-buffer index written by `render` for pixel `(x, y)`
(src/main.rs line 175): `image[x + y]`. -/
def renderStoreIndex (x y : ℕ) : ℕ := x + y

/-- The camera-space ray direction computed by `render` for pixel `(x, y)`
(src/main.rs lines 165-183). -/
def renderRayDir (x y : ℕ) : Vec3 :=
  let inv_width : ℝ := 1 / (WIDTH : ℝ)
  let inv_height : ℝ := 1 / (HEIGHT : ℝ)
  let fov : ℝ := 30
  let aspect : ℝ := (WIDTH : ℝ) / (HEIGHT : ℝ)
  let angle : ℝ := Real.tan (Real.pi * 0.5 * fov / 180)
  let xx : ℝ := (2 * (((x : ℝ) + 0.5) * inv_width) - 1) * angle * aspect
  let yy : ℝ := (1 - 2 * (((y : ℝ) + 0.5) * inv_height)) * angle
  Vec3.normalized ⟨xx, yy, -1⟩

/-- The image buffer produced by the loops of `render` (src/main.rs lines
171-190), modelled as a function from flat indices to colors, updated once
per visited pixel in loop order. -/
def renderImage (spheres : List Sphere) : ℕ → Vec3 :=
  renderPixelPairs.foldl
    (fun img p =>
      Function.update img (renderStoreIndex p.1 p.2)
        (trace ⟨Vec3.new_uniform 0, renderRayDir p.1 p.2⟩ spheres 0))
    fun _ => ⟨0, 0, 0⟩

/-!
Definitions below this point are not translations of the source: they
follow the wording of the specification or of a claim, and are compared
with the source-derived definitions above by the theorems.
-/

/-- The effective hit distance of spec §4.3 / claim C4: `t0` when
`t0 ≥ 0`, `t1` otherwise. -/
def effectiveDist (ray : Ray) (s : Sphere) : Option ℝ :=
  (s.intersect ray).map fun t => if 0 ≤ t.1 then t.1 else t.2

/-- Nearest-hit selection as spec §4.3 words it: walk the scene in
declared order, keep the entry of minimum effective distance, and let the
first sphere encountered win a tied minimum. -/
def nearestSpec (ray : Ray) : List Sphere → Option (ℝ × Sphere)
  | [] => none
  | s :: rest =>
    match effectiveDist ray s, nearestSpec ray rest with
    | none, r => r
    | some t, none => some (t, s)
    | some t, some (tr, sr) => if t ≤ tr then some (t, s) else some (tr, sr)

/-- Helper: merge a nearest-hit accumulator with a later search result,
keeping the earlier entry unless the later one is strictly closer. -/
def combineNear : Option (ℝ × Sphere) → Option (ℝ × Sphere) → Option (ℝ × Sphere)
  | none, r => r
  | some p, none => some p
  | some (t, s), some (tr, sr) => if tr < t then some (tr, sr) else some (t, s)

/-- `trace` with the specular guard permanently off: nearest hit, diffuse
lighting, emission — and no recursive call. Used to state that at
`depth ≥ MAX_RAY_DEPTH` the recursion has stopped. -/
def traceNoRec (ray : Ray) (spheres : List Sphere) : Vec3 :=
  match traceNear ray spheres with
  | none => Vec3.new_uniform 2
  | some (tnear, near_sphere) =>
    let hit_point : Vec3 := ray.origin + ray.direction * tnear
    let n0 : Vec3 := (hit_point - near_sphere.center).normalized
    let hit_normal : Vec3 :=
      if ray.direction.dot_product n0 > 0 then -n0 else n0
    diffuseColor spheres near_sphere hit_point hit_normal + near_sphere.emission

/-- The specular-branch result as spec §4.4 step 6 / claim C5 word it:
`facingRatio = -dot(rayDirection, normal)` after the inside flip,
`fresnel = mix((1-facingRatio)^3, 1, 0.1)`, returned color
`(reflectionColor*fresnel + refractionColor*(1-fresnel)*transparency) *
surfaceColor + emission`, with `refractionColor` zero when the
transparency is zero. -/
def specularSpecColor (ray : Ray) (spheres : List Sphere) (depth : ℕ)
    (tnear : ℝ) (ns : Sphere) : Vec3 :=
  let hit_point : Vec3 := ray.origin + ray.direction * tnear
  let n0 : Vec3 := (hit_point - ns.center).normalized
  let normal : Vec3 := if ray.direction.dot_product n0 > 0 then -n0 else n0
  let facing : ℝ := -(ray.direction.dot_product normal)
  let fresnel : ℝ := mix ((1 - facing) ^ 3) 1 0.1
  let reflectionColor : Vec3 :=
    trace ⟨hit_point + normal * (1e-4 : ℝ),
      (ray.direction - normal * (2 : ℝ) * (ray.direction.dot_product normal)).normalized⟩
      spheres (depth + 1)
  let refractionColor : Vec3 :=
    if ns.transparency > 0 then
      let eta : ℝ :=
        if ray.direction.dot_product n0 > 0 then 1.1 else 1 / 1.1
      let cosi : ℝ := -(normal.dot_product ray.direction)
      let k : ℝ := 1 - eta * eta * (1 - cosi * cosi)
      trace ⟨hit_point - normal * (1e-4 : ℝ),
        (ray.direction * eta + normal * (eta * cosi - Real.sqrt k)).normalized⟩
        spheres (depth + 1)
    else
      Vec3.new_uniform 0
  (reflectionColor * fresnel + refractionColor * ((1 - fresnel) * ns.transparency)) *
    ns.surface_color + ns.emission

/-- The occlusion test as claim C1 words it: the shadow ray is tested
against every sphere except the light sphere (enumeration index `i`) and
except the currently shaded sphere (enumeration index `self`). -/
def shadowHitClaim (spheres : List Sphere) (i self : ℕ) (light_ray : Ray) : Bool :=
  spheres.enum.any fun js =>
    (js.1 != i) && (js.1 != self) && (js.2.intersect light_ray).isSome

/-- The diffuse/lighting branch as claim C1 words it: per emissive sphere,
transmission is 1 exactly when no sphere other than the light and other
than the currently shaded sphere (at index `self`) intersects the shadow
ray, and 0 otherwise. -/
def diffuseClaimC1 (spheres : List Sphere) (ns : Sphere) (self : ℕ)
    (hit_point hit_normal : Vec3) : Vec3 :=
  spheres.enum.foldl
    (fun acc is =>
      if is.2.emission.x > 0 then
        let light_dir : Vec3 := (is.2.center - hit_point).normalized
        let light_ray : Ray := ⟨hit_point + hit_normal * (1e-4 : ℝ), light_dir⟩
        let transmission : ℝ :=
          if shadowHitClaim spheres is.1 self light_ray then 0 else 1
        acc + ns.surface_color * Vec3.new_uniform transmission *
          max 0 (hit_normal.dot_product light_dir) * is.2.emission
      else acc)
    (Vec3.new_uniform 0)

/-- Occlusion as the amended claim C1 words it: some sphere of the scene
whose position differs from the light's position `i` intersects the
shadow ray (the currently shaded sphere is not excluded). -/
def occludesSomeOther (spheres : List Sphere) (i : ℕ) (light_ray : Ray) : Prop :=
  ∃ j, ∃ h : j < spheres.length, j ≠ i ∧
    ((spheres.get ⟨j, h⟩).intersect light_ray).isSome = true

open Classical in
/-- The diffuse/lighting branch as the amended claim C1 words it: per
emissive sphere at index `i`, the light contributes with transmission 1
exactly when no sphere other than the light itself intersects the shadow
ray, and with transmission 0 otherwise. -/
def diffuseAmended (spheres : List Sphere) (ns : Sphere)
    (hit_point hit_normal : Vec3) : Vec3 :=
  spheres.enum.foldl
    (fun acc is =>
      if is.2.emission.x > 0 then
        let light_dir : Vec3 := (is.2.center - hit_point).normalized
        let light_ray : Ray := ⟨hit_point + hit_normal * (1e-4 : ℝ), light_dir⟩
        let transmission : ℝ :=
          if occludesSomeOther spheres is.1 light_ray then 0 else 1
        acc + ns.surface_color * Vec3.new_uniform transmission *
          max 0 (hit_normal.dot_product light_dir) * is.2.emission
      else acc)
    (Vec3.new_uniform 0)

/-- Agreement on every `Sphere` field except `radius` (claim C10). -/
def SphereSim (s t : Sphere) : Prop :=
  s.center = t.center ∧ s.sqr_radius = t.sqr_radius ∧
  s.surface_color = t.surface_color ∧ s.emission = t.emission ∧
  s.transparency = t.transparency ∧ s.reflection = t.reflection

/-- Lifts `SphereSim` to nearest-hit results: equal distances, related
spheres. -/
def OptSim : Option (ℝ × Sphere) → Option (ℝ × Sphere) → Prop
  | none, none => True
  | some (t, s), some (tr, sr) => t = tr ∧ SphereSim s sr
  | _, _ => False

/-- The (possibly inside-flipped) surface normal `trace` computes at a hit
(src/main.rs lines 79-89), as a standalone function of the ray, the hit
distance and the hit sphere. -/
def traceHitNormal (ray : Ray) (tnear : ℝ) (ns : Sphere) : Vec3 :=
  let n0 : Vec3 := (ray.origin + ray.direction * tnear - ns.center).normalized
  if ray.direction.dot_product n0 > 0 then -n0 else n0

/-- Test sphere: unit sphere at the origin, white, plain diffuse. -/
def sA : Sphere := ⟨⟨0, 0, 0⟩, 1, 1, ⟨1, 1, 1⟩, ⟨0, 0, 0⟩, 0, 0⟩

/-- Test sphere: unit emissive sphere (a light) behind the camera. -/
def sLight : Sphere := ⟨⟨0, 0, 9⟩, 1, 1, ⟨0, 0, 0⟩, ⟨1, 1, 1⟩, 0, 0⟩

/-- Test scene: a diffuse sphere around the camera and a light. -/
def cScene : List Sphere := [sA, sLight]

/-- Test ray: from the world origin (inside `sA`) toward `-z`. -/
def cRay : Ray := ⟨⟨0, 0, 0⟩, ⟨0, 0, -1⟩⟩

/-- Test sphere: unit sphere at the origin, fully reflective. -/
def sR : Sphere := ⟨⟨0, 0, 0⟩, 1, 1, ⟨1, 1, 1⟩, ⟨0, 0, 0⟩, 0, 1⟩

/-- Test ray: from `(0,0,5)` toward `-z`. -/
def rRay : Ray := ⟨⟨0, 0, 5⟩, ⟨0, 0, -1⟩⟩

/-- Test sphere: radius-2 sphere at the origin (`sqr_radius = 4`). -/
def sW : Sphere := ⟨⟨0, 0, 0⟩, 2, 4, ⟨1, 1, 1⟩, ⟨0, 0, 0⟩, 0, 0⟩

/-- `sA` with a different (inconsistent) `radius` field and every other
field unchanged. -/
def sA2 : Sphere := ⟨⟨0, 0, 0⟩, 37, 1, ⟨1, 1, 1⟩, ⟨0, 0, 0⟩, 0, 0⟩

namespace Vec3

@[simp] theorem add_x (a b : Vec3) : (a + b).x = a.x + b.x := rfl

@[simp] theorem add_y (a b : Vec3) : (a + b).y = a.y + b.y := rfl

@[simp] theorem add_z (a b : Vec3) : (a + b).z = a.z + b.z := rfl

@[simp] theorem sub_x (a b : Vec3) : (a - b).x = a.x - b.x := rfl

@[simp] theorem sub_y (a b : Vec3) : (a - b).y = a.y - b.y := rfl

@[simp] theorem sub_z (a b : Vec3) : (a - b).z = a.z - b.z := rfl

@[simp] theorem neg_x (a : Vec3) : (-a).x = -a.x := rfl

@[simp] theorem neg_y (a : Vec3) : (-a).y = -a.y := rfl

@[simp] theorem neg_z (a : Vec3) : (-a).z = -a.z := rfl

@[simp] theorem mul_x (a b : Vec3) : (a * b).x = a.x * b.x := rfl

@[simp] theorem mul_y (a b : Vec3) : (a * b).y = a.y * b.y := rfl

@[simp] theorem mul_z (a b : Vec3) : (a * b).z = a.z * b.z := rfl

@[simp] theorem smul_x (a : Vec3) (r : ℝ) : (a * r).x = a.x * r := rfl

@[simp] theorem smul_y (a : Vec3) (r : ℝ) : (a * r).y = a.y * r := rfl

@[simp] theorem smul_z (a : Vec3) (r : ℝ) : (a * r).z = a.z * r := rfl

@[simp] theorem mk_add (a b c d e f : ℝ) :
    (Vec3.mk a b c) + Vec3.mk d e f = ⟨a + d, b + e, c + f⟩ := rfl

@[simp] theorem mk_sub (a b c d e f : ℝ) :
    (Vec3.mk a b c) - Vec3.mk d e f = ⟨a - d, b - e, c - f⟩ := rfl

@[simp] theorem mk_neg (a b c : ℝ) : -(Vec3.mk a b c) = ⟨-a, -b, -c⟩ := rfl

@[simp] theorem mk_mul (a b c d e f : ℝ) :
    (Vec3.mk a b c) * Vec3.mk d e f = ⟨a * d, b * e, c * f⟩ := rfl

@[simp] theorem mk_smul (a b c r : ℝ) :
    (Vec3.mk a b c) * r = ⟨a * r, b * r, c * r⟩ := rfl

@[simp] theorem mk_dot (a b c d e f : ℝ) :
    (Vec3.mk a b c).dot_product ⟨d, e, f⟩ = a * d + b * e + c * f := rfl

@[simp] theorem mk_sqr_magnitude (a b c : ℝ) :
    (Vec3.mk a b c).sqr_magnitude = a * a + b * b + c * c := rfl

@[simp] theorem new_uniform_mk (a : ℝ) : new_uniform a = ⟨a, a, a⟩ := rfl

theorem dot_product_def (a b : Vec3) :
    a.dot_product b = a.x * b.x + a.y * b.y + a.z * b.z := rfl

theorem sqr_magnitude_def (v : Vec3) :
    v.sqr_magnitude = v.x * v.x + v.y * v.y + v.z * v.z := rfl

end Vec3

theorem normalized_negz : Vec3.normalized ⟨0, 0, -1⟩ = ⟨0, 0, -1⟩ := by
  unfold Vec3.normalized
  norm_num [Real.sqrt_one]

theorem normalized_ten : Vec3.normalized ⟨0, 0, 10⟩ = ⟨0, 0, 1⟩ := by
  unfold Vec3.normalized
  have h : Real.sqrt 100 = 10 := by
    rw [show (100 : ℝ) = 10 ^ 2 by norm_num, Real.sqrt_sq]
    norm_num
  norm_num [h]

/-- Helper: at `depth ≥ MAX_RAY_DEPTH` the specular guard of `trace` is
off, so `trace` coincides with the recursion-free `traceNoRec`. -/
theorem trace_noRec_of_depth (ray : Ray) (spheres : List Sphere) (depth : ℕ)
    (h : MAX_RAY_DEPTH ≤ depth) :
    trace ray spheres depth = traceNoRec ray spheres := by
  rw [trace.eq_def]
  unfold traceNoRec
  cases htn : traceNear ray spheres with
  | none => rfl
  | some p =>
    obtain ⟨t, ns⟩ := p
    simp only
    rw [dif_neg]
    intro hc
    exact absurd hc.1 (Nat.not_lt.mpr h)

/-- C6: `Sphere::intersect` returns `None` exactly when the center
projects behind the ray origin (`tca < 0`) or the squared perpendicular
distance exceeds the squared radius; in every other case it returns
`Some` pair. -/
theorem intersect_none_iff (s : Sphere) (ray : Ray) :
    s.intersect ray = none ↔
      (s.center - ray.origin).dot_product ray.direction < 0 ∨
      (s.center - ray.origin).dot_product (s.center - ray.origin) -
        (s.center - ray.origin).dot_product ray.direction *
        (s.center - ray.origin).dot_product ray.direction > s.sqr_radius := by
  unfold Sphere.intersect
  dsimp only
  split_ifs with h1 h2 <;> simp_all

/-- C7: a sphere centered at the origin with radius `r > 0` and
`sqr_radius = r * r`, hit by the ray from `(0,0,5)` toward `(0,0,-1)`,
yields `some (5 - r, 5 + r)`; and every `some` result of `intersect` has
`t0 ≤ t1`. -/
theorem intersect_axial_and_ordered :
    (∀ (r : ℝ) (s : Sphere), 0 < r → s.center = ⟨0, 0, 0⟩ →
      s.sqr_radius = r * r →
      s.intersect ⟨⟨0, 0, 5⟩, ⟨0, 0, -1⟩⟩ = some (5 - r, 5 + r)) ∧
    (∀ (s : Sphere) (ray : Ray) (t0 t1 : ℝ),
      s.intersect ray = some (t0, t1) → t0 ≤ t1) := by
  constructor
  · intro r s hr hc hsr
    have hrr : Real.sqrt (r * r) = r := Real.sqrt_mul_self hr.le
    have hrpos : ¬ ((0 : ℝ) > r * r) := by nlinarith
    unfold Sphere.intersect
    rw [hc, hsr]
    norm_num [hrr, hrpos]
  · intro s ray t0 t1 h
    unfold Sphere.intersect at h
    dsimp only at h
    split_ifs at h
    rw [Option.some_inj, Prod.mk.injEq] at h
    obtain ⟨h3, h4⟩ := h
    have h5 := Real.sqrt_nonneg (s.sqr_radius -
      ((s.center - ray.origin).dot_product (s.center - ray.origin) -
       (s.center - ray.origin).dot_product ray.direction *
       (s.center - ray.origin).dot_product ray.direction))
    linarith

/-- Witness for C7 at `r = 2`: the radius-2 sphere at the origin meets
the test ray at `(3, 7)`, and the two distances are ordered. -/
theorem intersect_axial_and_ordered_witness :
    (0 : ℝ) < 2 ∧
    sW.intersect ⟨⟨0, 0, 5⟩, ⟨0, 0, -1⟩⟩ = some (5 - 2, 5 + 2) ∧
    (5 - 2 : ℝ) ≤ 5 + 2 := by
  refine ⟨by norm_num, ?_, ?_⟩
  · exact intersect_axial_and_ordered.1 2 sW (by norm_num) rfl (by norm_num [sW])
  · exact intersect_axial_and_ordered.2 sW ⟨⟨0, 0, 5⟩, ⟨0, 0, -1⟩⟩ (5 - 2) (5 + 2)
      (intersect_axial_and_ordered.1 2 sW (by norm_num) rfl (by norm_num [sW]))

/-- C8: `normalized` leaves a vector of non-positive squared magnitude
(in particular the zero vector) unchanged, and scales a vector of
positive squared magnitude by `1 / sqrt (sqrMagnitude)`. -/
theorem normalized_spec (v : Vec3) :
    (v.sqr_magnitude ≤ 0 → v.normalized = v) ∧
    (0 < v.sqr_magnitude →
      v.normalized = v * ((1 : ℝ) / Real.sqrt v.sqr_magnitude)) := by
  unfold Vec3.normalized
  constructor
  · intro h
    rw [if_neg (not_lt.mpr h)]
  · intro h
    rw [if_pos h]

/-- Witness for C8: the zero vector is returned unchanged, and a nonzero
vector is scaled by the reciprocal square root of its squared magnitude. -/
theorem normalized_spec_witness :
    ((Vec3.mk 0 0 0).sqr_magnitude ≤ 0 ∧
      (Vec3.mk 0 0 0).normalized = ⟨0, 0, 0⟩) ∧
    (0 < (Vec3.mk 0 0 10).sqr_magnitude ∧
      (Vec3.mk 0 0 10).normalized =
        Vec3.mk 0 0 10 * ((1 : ℝ) / Real.sqrt (Vec3.mk 0 0 10).sqr_magnitude)) := by
  constructor
  · exact ⟨by norm_num, (normalized_spec ⟨0, 0, 0⟩).1 (by norm_num)⟩
  · exact ⟨by norm_num, (normalized_spec ⟨0, 0, 10⟩).2 (by norm_num)⟩

/-- C9: on the empty scene `trace` returns the fixed background color
`new_uniform 2` for every ray at every depth; more generally a
nearest-hit miss returns that color, which is uniform and not black. -/
theorem trace_miss_background :
    (∀ (ray : Ray) (depth : ℕ), trace ray [] depth = Vec3.new_uniform 2) ∧
    (∀ (ray : Ray) (spheres : List Sphere) (depth : ℕ),
      traceNear ray spheres = none →
      trace ray spheres depth = Vec3.new_uniform 2) ∧
    Vec3.new_uniform 2 ≠ Vec3.new_uniform 0 := by
  refine ⟨?_, ?_, ?_⟩
  · intro ray depth
    rw [trace.eq_def]
    rfl
  · intro ray spheres depth h
    rw [trace.eq_def, h]
  · intro h
    have hx := congrArg Vec3.x h
    norm_num at hx

/-- Witness for C9: a concrete ray against the empty scene misses and
receives the background color. -/
theorem trace_miss_background_witness :
    traceNear ⟨⟨0, 0, 0⟩, ⟨0, 0, -1⟩⟩ [] = none ∧
    trace ⟨⟨0, 0, 0⟩, ⟨0, 0, -1⟩⟩ [] 7 = Vec3.new_uniform 2 :=
  ⟨rfl, trace_miss_background.2.1 _ [] 7 rfl⟩

/-- C3: at `depth ≥ MAX_RAY_DEPTH` the specular branch cannot be taken,
so `trace` equals the recursion-free `traceNoRec`: the recursion spawns
no call beyond the depth bound and therefore terminates. -/
theorem trace_depth_capped (ray : Ray) (spheres : List Sphere) (depth : ℕ)
    (h : MAX_RAY_DEPTH ≤ depth) :
    trace ray spheres depth = traceNoRec ray spheres :=
  trace_noRec_of_depth ray spheres depth h

/-- Witness for C3: at depth 5 (the maximum) `trace` on a concrete ray
equals the recursion-free function. -/
theorem trace_depth_capped_witness :
    MAX_RAY_DEPTH ≤ 5 ∧
    trace ⟨⟨0, 0, 0⟩, ⟨0, 0, -1⟩⟩ [] 5 = traceNoRec ⟨⟨0, 0, 0⟩, ⟨0, 0, -1⟩⟩ [] :=
  ⟨by decide, trace_depth_capped _ [] 5 (by decide)⟩

theorem combineNear_none_left (r : Option (ℝ × Sphere)) :
    combineNear none r = r := by
  cases r <;> rfl

theorem combineNear_none_right (p : ℝ × Sphere) :
    combineNear (some p) none = some p := rfl

theorem combineNear_some_some (t tr : ℝ) (s sr : Sphere) :
    combineNear (some (t, s)) (some (tr, sr)) =
      if tr < t then some (tr, sr) else some (t, s) := rfl

/-- One loop step of the source's nearest-hit search equals merging the
accumulator with this sphere's tagged effective distance. -/
theorem nearStep_eq (ray : Ray) (acc : Option (ℝ × Sphere)) (s : Sphere) :
    nearStep ray acc s =
      combineNear acc ((effectiveDist ray s).map fun t => (t, s)) := by
  unfold nearStep effectiveDist
  cases hI : s.intersect ray with
  | none =>
    cases acc <;> rfl
  | some p =>
    obtain ⟨t0, t1⟩ := p
    have hte : (if t0 < 0 then t1 else t0) = (if 0 ≤ t0 then t0 else t1) := by
      rcases lt_or_le t0 0 with h | h
      · rw [if_pos h, if_neg (not_le.mpr h)]
      · rw [if_neg (not_lt.mpr h), if_pos h]
    dsimp only [Option.map]
    cases acc with
    | none =>
      rw [combineNear_none_left, Option.some_inj, Prod.mk.injEq]
      exact ⟨hte, rfl⟩
    | some q =>
      obtain ⟨tn, sn⟩ := q
      rw [combineNear_some_some, hte]

theorem nearestSpec_cons (ray : Ray) (s : Sphere) (l : List Sphere) :
    nearestSpec ray (s :: l) =
      combineNear ((effectiveDist ray s).map fun t => (t, s)) (nearestSpec ray l) := by
  have hstep : nearestSpec ray (s :: l) =
      match effectiveDist ray s, nearestSpec ray l with
      | none, r => r
      | some t, none => some (t, s)
      | some t, some (tr, sr) => if t ≤ tr then some (t, s) else some (tr, sr) := rfl
  rw [hstep]
  cases hE : effectiveDist ray s with
  | none =>
    cases nearestSpec ray l <;> rfl
  | some t =>
    cases nearestSpec ray l with
    | none => rfl
    | some q =>
      obtain ⟨tr, sr⟩ := q
      dsimp only [Option.map]
      rw [combineNear_some_some]
      rcases le_or_lt t tr with h | h
      · rw [if_pos h, if_neg (not_lt.mpr h)]
      · rw [if_neg (not_le.mpr h), if_pos h]

theorem combineNear_assoc (a b c : Option (ℝ × Sphere)) :
    combineNear (combineNear a b) c = combineNear a (combineNear b c) := by
  rcases a with _ | ⟨ta, sa⟩ <;> rcases b with _ | ⟨tb, sb⟩ <;>
    rcases c with _ | ⟨tc, sc⟩ <;>
    simp only [combineNear_none_left, combineNear_none_right,
      combineNear_some_some] <;>
    try split_ifs
  all_goals
    simp only [combineNear_none_left, combineNear_none_right, combineNear_some_some]
  all_goals try split_ifs
  all_goals first | rfl | (exfalso; linarith)

/-- The source's nearest-hit fold from any accumulator merges the
accumulator with the specification's first-minimum selection. -/
theorem foldl_nearStep_eq (ray : Ray) (l : List Sphere) :
    ∀ acc, l.foldl (nearStep ray) acc = combineNear acc (nearestSpec ray l) := by
  induction l with
  | nil =>
    intro acc
    cases acc <;> rfl
  | cons s l ih =>
    intro acc
    rw [List.foldl_cons, ih, nearStep_eq, nearestSpec_cons, combineNear_assoc]

/-- Helper form of the C4 refinement, free for reuse. -/
theorem traceNear_eq_nearestSpec_aux (ray : Ray) (spheres : List Sphere) :
    traceNear ray spheres = nearestSpec ray spheres := by
  unfold traceNear
  rw [foldl_nearStep_eq, combineNear_none_left]

theorem nearestSpec_none_forall (ray : Ray) :
    ∀ (l : List Sphere), nearestSpec ray l = none →
      ∀ s ∈ l, effectiveDist ray s = none := by
  intro l
  induction l with
  | nil => intro _ s hs; exact absurd hs (List.not_mem_nil s)
  | cons a l ih =>
    intro h s hs
    rw [nearestSpec_cons] at h
    cases hE : effectiveDist ray a with
    | none =>
      rw [hE] at h
      dsimp only [Option.map] at h
      rw [combineNear_none_left] at h
      rcases List.mem_cons.mp hs with rfl | hmem
      · exact hE
      · exact ih h s hmem
    | some ta =>
      rw [hE] at h
      dsimp only [Option.map] at h
      cases hn : nearestSpec ray l with
      | none => rw [hn, combineNear_none_right] at h; exact absurd h (by simp)
      | some q =>
        obtain ⟨tr, sr⟩ := q
        rw [hn, combineNear_some_some] at h
        split_ifs at h

/-- A nearest-hit result is a member of the scene, carries its own
effective distance, and that distance is minimal over the scene. -/
theorem nearestSpec_some_min (ray : Ray) :
    ∀ (l : List Sphere) (t : ℝ) (s : Sphere), nearestSpec ray l = some (t, s) →
      s ∈ l ∧ effectiveDist ray s = some t ∧
      ∀ sp ∈ l, ∀ tp, effectiveDist ray sp = some tp → t ≤ tp := by
  intro l
  induction l with
  | nil => intro t s h; exact absurd h (by simp [nearestSpec])
  | cons a l ih =>
    intro t s h
    rw [nearestSpec_cons] at h
    cases hE : effectiveDist ray a with
    | none =>
      rw [hE] at h
      dsimp only [Option.map] at h
      rw [combineNear_none_left] at h
      obtain ⟨hmem, hdist, hmin⟩ := ih t s h
      refine ⟨List.mem_cons_of_mem a hmem, hdist, ?_⟩
      intro sp hsp tp htp
      rcases List.mem_cons.mp hsp with rfl | hmem'
      · rw [hE] at htp; exact absurd htp (by simp)
      · exact hmin sp hmem' tp htp
    | some ta =>
      rw [hE] at h
      dsimp only [Option.map] at h
      cases hn : nearestSpec ray l with
      | none =>
        rw [hn, combineNear_none_right, Option.some_inj, Prod.mk.injEq] at h
        obtain ⟨ht, hs⟩ := h
        subst ht
        subst hs
        refine ⟨List.mem_cons_self a l, hE, ?_⟩
        intro sp hsp tp htp
        rcases List.mem_cons.mp hsp with rfl | hmem'
        · rw [hE, Option.some_inj] at htp; exact le_of_eq htp
        · rw [nearestSpec_none_forall ray l hn sp hmem'] at htp
          exact absurd htp (by simp)
      | some q =>
        obtain ⟨tr, sr⟩ := q
        rw [hn, combineNear_some_some] at h
        obtain ⟨hmem, hdist, hmin⟩ := ih tr sr hn
        split_ifs at h with hlt
        · rw [Option.some_inj, Prod.mk.injEq] at h
          obtain ⟨ht, hs⟩ := h
          subst ht
          subst hs
          refine ⟨List.mem_cons_of_mem a hmem, hdist, ?_⟩
          intro sp hsp tp htp
          rcases List.mem_cons.mp hsp with rfl | hmem'
          · rw [hE, Option.some_inj] at htp; subst htp; exact le_of_lt hlt
          · exact hmin sp hmem' tp htp
        · rw [Option.some_inj, Prod.mk.injEq] at h
          obtain ⟨ht, hs⟩ := h
          subst ht
          subst hs
          refine ⟨List.mem_cons_self a l, hE, ?_⟩
          intro sp hsp tp htp
          rcases List.mem_cons.mp hsp with rfl | hmem'
          · rw [hE, Option.some_inj] at htp; exact le_of_eq htp
          · exact le_trans (not_lt.mp hlt) (hmin sp hmem' tp htp)

theorem sR_intersect_rRay : sR.intersect rRay = some (4, 6) := by
  unfold Sphere.intersect
  norm_num [sR, rRay, Real.sqrt_one]

theorem traceNear_rRay : traceNear rRay [sR] = some (4, sR) := by
  unfold traceNear
  rw [List.foldl_cons, List.foldl_nil]
  unfold nearStep
  rw [sR_intersect_rRay]
  norm_num

theorem effectiveDist_rRay : effectiveDist rRay sR = some 4 := by
  unfold effectiveDist
  rw [sR_intersect_rRay]
  norm_num

/-- C4: the source's nearest-hit fold equals the specification's
first-minimum selection over effective distances (`t0` when `t0 ≥ 0`,
else `t1`); and any returned hit distance is minimal among the effective
distances of the whole scene. -/
theorem traceNear_nearest :
    (∀ (ray : Ray) (spheres : List Sphere),
      traceNear ray spheres = nearestSpec ray spheres) ∧
    (∀ (ray : Ray) (spheres : List Sphere) (t : ℝ) (s : Sphere),
      traceNear ray spheres = some (t, s) →
      s ∈ spheres ∧ effectiveDist ray s = some t ∧
      ∀ sp ∈ spheres, ∀ tp, effectiveDist ray sp = some tp → t ≤ tp) := by
  refine ⟨traceNear_eq_nearestSpec_aux, ?_⟩
  intro ray spheres t s h
  rw [traceNear_eq_nearestSpec_aux] at h
  exact nearestSpec_some_min ray spheres t s h

/-- Witness for C4: the concrete single-sphere scene hit at distance 4,
with minimality checked against the sphere's own effective distance. -/
theorem traceNear_nearest_witness :
    traceNear rRay [sR] = some (4, sR) ∧ sR ∈ [sR] ∧
    effectiveDist rRay sR = some 4 ∧ (4 : ℝ) ≤ 4 := by
  refine ⟨traceNear_rRay, by simp, effectiveDist_rRay, ?_⟩
  exact (traceNear_nearest.2 rRay [sR] 4 sR traceNear_rRay).2.2 sR (by simp)
    4 effectiveDist_rRay

/-- C5: when the nearest hit exists, `depth < MAX_RAY_DEPTH` and the hit
sphere has positive transparency or reflection, `trace` returns exactly
the specification's specular blend `(reflectionColor * fresnel +
refractionColor * (1 - fresnel) * transparency) * surfaceColor +
emission`, with `fresnel = mix((1 - facingRatio)^3, 1, 0.1)`,
`facingRatio = -dot(rayDirection, normal)` after the inside flip, and the
refraction color zero when the transparency is zero. -/
theorem trace_specular (ray : Ray) (spheres : List Sphere) (depth : ℕ)
    (tnear : ℝ) (ns : Sphere)
    (hnear : traceNear ray spheres = some (tnear, ns))
    (hd : depth < MAX_RAY_DEPTH)
    (hs : ns.transparency > 0 ∨ ns.reflection > 0) :
    trace ray spheres depth = specularSpecColor ray spheres depth tnear ns := by
  rw [trace.eq_def, hnear]
  unfold specularSpecColor
  dsimp only
  rw [dif_pos ⟨hd, hs⟩]

/-- Witness for C5: a fully reflective sphere hit at depth 0. -/
theorem trace_specular_witness :
    traceNear rRay [sR] = some (4, sR) ∧ 0 < MAX_RAY_DEPTH ∧
    (sR.transparency > 0 ∨ sR.reflection > 0) ∧
    trace rRay [sR] 0 = specularSpecColor rRay [sR] 0 4 sR :=
  ⟨traceNear_rRay, by decide, Or.inr (by norm_num [sR]),
   trace_specular rRay [sR] 0 4 sR traceNear_rRay (by decide)
     (Or.inr (by norm_num [sR]))⟩

/-- The source's Boolean occluder test answers true exactly when some
sphere at an index other than the light's intersects the shadow ray. -/
theorem shadowHit_iff_occludes (spheres : List Sphere) (i : ℕ) (r : Ray) :
    shadowHit spheres i r = true ↔ occludesSomeOther spheres i r := by
  unfold shadowHit occludesSomeOther
  rw [List.any_eq_true, List.exists_mem_enum]
  simp only [Bool.and_eq_true, bne_iff_ne, ne_eq, List.get_eq_getElem]

open Classical in
/-- The source's diffuse branch equals the amended-claim formulation that
excludes only the light sphere from the occluder test. -/
theorem diffuseColor_eq_amended (spheres : List Sphere) (ns : Sphere)
    (hp hn : Vec3) :
    diffuseColor spheres ns hp hn = diffuseAmended spheres ns hp hn := by
  unfold diffuseColor diffuseAmended
  apply List.foldl_ext
  intro acc is _
  unfold diffuseLight
  dsimp only
  by_cases he : is.2.emission.x > 0
  · rw [if_pos he, if_pos he]
    have htr :
        (if shadowHit spheres is.1
            ⟨hp + hn * (1e-4 : ℝ), (is.2.center - hp).normalized⟩ then (0 : ℝ) else 1) =
        (if occludesSomeOther spheres is.1
            ⟨hp + hn * (1e-4 : ℝ), (is.2.center - hp).normalized⟩ then (0 : ℝ) else 1) :=
      if_congr (shadowHit_iff_occludes spheres is.1
        ⟨hp + hn * (1e-4 : ℝ), (is.2.center - hp).normalized⟩) rfl rfl
    rw [htr]
  · rw [if_neg he, if_neg he]

theorem sA_intersect_cRay : sA.intersect cRay = some (-1, 1) := by
  unfold Sphere.intersect
  norm_num [sA, cRay, Real.sqrt_one]

theorem sLight_intersect_cRay : sLight.intersect cRay = none := by
  unfold Sphere.intersect
  norm_num [sLight, cRay]

theorem traceNear_cRay : traceNear cRay cScene = some (1, sA) := by
  unfold traceNear cScene
  rw [List.foldl_cons, List.foldl_cons, List.foldl_nil]
  unfold nearStep
  rw [sA_intersect_cRay, sLight_intersect_cRay]
  norm_num

/-- The shadow ray of the test scene re-enters the shaded sphere `sA`
itself (the ray starts just inside it, by the flipped-normal bias). -/
theorem sA_shadow_intersect :
    (sA.intersect ⟨(⟨0, 0, -1⟩ : Vec3) + (⟨0, 0, 1⟩ : Vec3) * (1e-4 : ℝ),
      (sLight.center - (⟨0, 0, -1⟩ : Vec3)).normalized⟩).isSome = true := by
  have hdir : (sLight.center - (⟨0, 0, -1⟩ : Vec3)).normalized = ⟨0, 0, 1⟩ := by
    norm_num [sLight, normalized_ten]
  rw [hdir]
  unfold Sphere.intersect
  norm_num [sA]

theorem shadowHit_cScene :
    shadowHit cScene 1 ⟨(⟨0, 0, -1⟩ : Vec3) + (⟨0, 0, 1⟩ : Vec3) * (1e-4 : ℝ),
      (sLight.center - (⟨0, 0, -1⟩ : Vec3)).normalized⟩ = true := by
  unfold shadowHit
  rw [show cScene.enum = [(0, sA), (1, sLight)] from rfl, List.any_cons]
  rw [show ((0 : ℕ) != 1) = true from rfl]
  simp only [Bool.true_and, sA_shadow_intersect, Bool.true_or]

theorem diffuse_cScene_eval :
    diffuseColor cScene sA ⟨0, 0, -1⟩ ⟨0, 0, 1⟩ = Vec3.new_uniform 0 := by
  unfold diffuseColor
  rw [show cScene.enum = [(0, sA), (1, sLight)] from rfl,
    List.foldl_cons, List.foldl_cons, List.foldl_nil]
  unfold diffuseLight
  dsimp only
  rw [if_neg (by norm_num [sA] : ¬ (sA.emission.x > 0)),
    if_pos (by norm_num [sLight] : sLight.emission.x > 0),
    if_pos shadowHit_cScene]
  norm_num [sA, sLight, normalized_ten]

theorem trace_cRay_eval : trace cRay cScene 0 = Vec3.new_uniform 0 := by
  rw [trace.eq_def, traceNear_cRay]
  dsimp only
  rw [dif_neg (by norm_num [sA, MAX_RAY_DEPTH] :
    ¬ (0 < MAX_RAY_DEPTH ∧ (sA.transparency > 0 ∨ sA.reflection > 0)))]
  have hhp : cRay.origin + cRay.direction * (1 : ℝ) = (⟨0, 0, -1⟩ : Vec3) := by
    norm_num [cRay]
  rw [hhp]
  have hn0 : ((⟨0, 0, -1⟩ : Vec3) - sA.center).normalized = ⟨0, 0, -1⟩ := by
    norm_num [sA, normalized_negz]
  rw [hn0]
  rw [if_pos (by norm_num [cRay] :
    cRay.direction.dot_product ⟨0, 0, -1⟩ > 0)]
  have hneg : -(⟨0, 0, -1⟩ : Vec3) = (⟨0, 0, 1⟩ : Vec3) := by norm_num
  rw [hneg, diffuse_cScene_eval]
  norm_num [sA]

theorem traceHitNormal_cRay : traceHitNormal cRay 1 sA = ⟨0, 0, 1⟩ := by
  unfold traceHitNormal
  have hhp : cRay.origin + cRay.direction * (1 : ℝ) = (⟨0, 0, -1⟩ : Vec3) := by
    norm_num [cRay]
  rw [hhp]
  have hn0 : ((⟨0, 0, -1⟩ : Vec3) - sA.center).normalized = ⟨0, 0, -1⟩ := by
    norm_num [sA, normalized_negz]
  rw [hn0]
  rw [if_pos (by norm_num [cRay] :
    cRay.direction.dot_product ⟨0, 0, -1⟩ > 0)]
  norm_num

/-- The claim's occluder test — which also skips the shaded sphere at
index 0 — finds no occluder in the test scene, whatever the shadow ray:
indices 0 (shaded) and 1 (light) are both excluded. -/
theorem shadowHitClaim_cScene (r : Ray) : shadowHitClaim cScene 1 0 r = false := rfl

theorem diffuseClaim_cScene_eval :
    diffuseClaimC1 cScene sA 0 ⟨0, 0, -1⟩ ⟨0, 0, 1⟩ + sA.emission =
      Vec3.new_uniform 1 := by
  unfold diffuseClaimC1
  rw [show cScene.enum = [(0, sA), (1, sLight)] from rfl,
    List.foldl_cons, List.foldl_cons, List.foldl_nil]
  dsimp only
  rw [if_neg (by norm_num [sA] : ¬ (sA.emission.x > 0)),
    if_pos (by norm_num [sLight] : sLight.emission.x > 0),
    if_neg (by simp [shadowHitClaim_cScene] :
      ¬ (shadowHitClaim cScene 1 0 ⟨(⟨0, 0, -1⟩ : Vec3) + (⟨0, 0, 1⟩ : Vec3) * (1e-4 : ℝ),
        (sLight.center - (⟨0, 0, -1⟩ : Vec3)).normalized⟩ = true))]
  norm_num [sA, sLight, normalized_ten]

/-- Counterexample to C1 as stated: in the scene `[sA, sLight]` with the
camera inside `sA`, the code's shadow test (which excludes only the
light) finds `sA` occluding its own light, so `trace` returns black,
while the claim's test (which also excludes the shaded sphere) would
find no occluder and produce `new_uniform 1` — and the two differ. -/
theorem trace_shadow_claim_cex :
    traceNear cRay cScene = some (1, sA) ∧
    traceHitNormal cRay 1 sA = ⟨0, 0, 1⟩ ∧
    trace cRay cScene 0 = Vec3.new_uniform 0 ∧
    diffuseClaimC1 cScene sA 0 ⟨0, 0, -1⟩ ⟨0, 0, 1⟩ + sA.emission =
      Vec3.new_uniform 1 ∧
    Vec3.new_uniform 0 ≠ Vec3.new_uniform 1 :=
  ⟨traceNear_cRay, traceHitNormal_cRay, trace_cRay_eval, diffuseClaim_cScene_eval,
   by norm_num⟩

/-- C1 (amended): in the diffuse branch, the shadow ray of each emissive
sphere is tested against every sphere except the light itself — the
currently shaded sphere is not excluded — and the contribution is
accumulated with transmission 1 exactly when none of those tested spheres
intersects, 0 otherwise. -/
theorem trace_diffuse_amended (ray : Ray) (spheres : List Sphere) (depth : ℕ)
    (tnear : ℝ) (ns : Sphere)
    (hnear : traceNear ray spheres = some (tnear, ns))
    (hb : ¬ (depth < MAX_RAY_DEPTH ∧ (ns.transparency > 0 ∨ ns.reflection > 0))) :
    trace ray spheres depth =
      diffuseAmended spheres ns (ray.origin + ray.direction * tnear)
        (traceHitNormal ray tnear ns) + ns.emission := by
  rw [trace.eq_def, hnear]
  dsimp only
  rw [dif_neg hb, diffuseColor_eq_amended]
  rfl

/-- Witness for the amended C1 on the concrete test scene. -/
theorem trace_diffuse_amended_witness :
    traceNear cRay cScene = some (1, sA) ∧
    ¬ (0 < MAX_RAY_DEPTH ∧ (sA.transparency > 0 ∨ sA.reflection > 0)) ∧
    trace cRay cScene 0 =
      diffuseAmended cScene sA (cRay.origin + cRay.direction * (1 : ℝ))
        (traceHitNormal cRay 1 sA) + sA.emission :=
  ⟨traceNear_cRay, by norm_num [sA, MAX_RAY_DEPTH],
   trace_diffuse_amended cRay cScene 0 1 sA traceNear_cRay
     (by norm_num [sA, MAX_RAY_DEPTH])⟩

/-- Every pixel pair visited by the render loops has both coordinates
below `HEIGHT` (the source's inner loop bound is `HEIGHT`, not `WIDTH`). -/
theorem render_pixel_pairs_bound :
    ∀ p ∈ renderPixelPairs, p.1 < HEIGHT ∧ p.2 < HEIGHT := by
  intro p hp
  unfold renderPixelPairs at hp
  simp only [List.mem_flatMap, List.mem_map, List.mem_range] at hp
  obtain ⟨y, hy, x, hx, rfl⟩ := hp
  exact ⟨hx, hy⟩

/-- C2 (code bug): pixel `(639, 0)` lies in the width-by-height raster
but is never visited by the source's loops (the inner bound is `HEIGHT`),
and the source's store index `x + y` both collides across distinct pixels
and disagrees with the row-major index `x + y * WIDTH`. -/
theorem render_loop_bug :
    639 < WIDTH ∧ (0 : ℕ) < HEIGHT ∧ ((639, 0) ∉ renderPixelPairs) ∧
    renderStoreIndex 0 1 = renderStoreIndex 1 0 ∧
    renderStoreIndex 0 1 ≠ 0 + 1 * WIDTH := by
  refine ⟨by norm_num [WIDTH], by norm_num [HEIGHT], ?_, rfl,
    by norm_num [renderStoreIndex, WIDTH]⟩
  intro hmem
  exact absurd (render_pixel_pairs_bound (639, 0) hmem).1 (by norm_num [HEIGHT])

theorem intersect_sim {s t : Sphere} (h : SphereSim s t) (ray : Ray) :
    s.intersect ray = t.intersect ray := by
  obtain ⟨hc, hr, -, -, -, -⟩ := h
  unfold Sphere.intersect
  rw [hc, hr]

theorem nearStep_sim (ray : Ray) {acc acc' : Option (ℝ × Sphere)} {s t : Sphere}
    (ha : OptSim acc acc') (h : SphereSim s t) :
    OptSim (nearStep ray acc s) (nearStep ray acc' t) := by
  unfold nearStep
  rw [← intersect_sim h ray]
  cases hI : s.intersect ray with
  | none => exact ha
  | some p =>
    obtain ⟨t0, t1⟩ := p
    dsimp only
    rcases acc with _ | ⟨tn, sn⟩ <;> rcases acc' with _ | ⟨tn', sn'⟩
    · exact ⟨rfl, h⟩
    · exact ha.elim
    · exact ha.elim
    · obtain ⟨hteq, hsim⟩ := ha
      subst hteq
      dsimp only
      split_ifs <;> first | exact ⟨rfl, h⟩ | exact ⟨rfl, hsim⟩

theorem traceNear_sim (ray : Ray) {l l' : List Sphere}
    (h : List.Forall₂ SphereSim l l') :
    OptSim (traceNear ray l) (traceNear ray l') := by
  have haux : ∀ {m m' : List Sphere}, List.Forall₂ SphereSim m m' →
      ∀ {acc acc'}, OptSim acc acc' →
        OptSim (m.foldl (nearStep ray) acc) (m'.foldl (nearStep ray) acc') := by
    intro m m' hmm
    induction hmm with
    | nil => intro acc acc' ha; exact ha
    | cons hst _ ih => intro acc acc' ha; exact ih (nearStep_sim ray ha hst)
  exact haux h trivial

theorem shadowHit_sim (i : ℕ) (r : Ray) {l l' : List Sphere}
    (h : List.Forall₂ SphereSim l l') :
    ∀ n, ((List.enumFrom n l).any fun js => (js.1 != i) && (js.2.intersect r).isSome) =
      ((List.enumFrom n l').any fun js => (js.1 != i) && (js.2.intersect r).isSome) := by
  induction h with
  | nil => intro n; rfl
  | cons hst _ ih =>
    intro n
    simp only [List.enumFrom, List.any_cons]
    rw [intersect_sim hst r, ih (n + 1)]

theorem shadowHit_scene_sim {l l' : List Sphere}
    (h : List.Forall₂ SphereSim l l') (i : ℕ) (r : Ray) :
    shadowHit l i r = shadowHit l' i r := by
  unfold shadowHit
  have := shadowHit_sim i r h 0
  simpa [List.enum] using this

theorem diffuseLight_sim {L L' : List Sphere} (hL : List.Forall₂ SphereSim L L')
    {ns ns' : Sphere} (hns : SphereSim ns ns') (hp hn : Vec3) (acc : Vec3)
    {a b : Sphere} (hab : SphereSim a b) (n : ℕ) :
    diffuseLight L ns hp hn acc (n, a) = diffuseLight L' ns' hp hn acc (n, b) := by
  obtain ⟨hc, -, -, hem, -, -⟩ := hab
  have hsc2 : ns.surface_color = ns'.surface_color := hns.2.2.1
  unfold diffuseLight
  dsimp only
  rw [hc, hem, hsc2,
    shadowHit_scene_sim hL n ⟨hp + hn * (1e-4 : ℝ), (b.center - hp).normalized⟩]

theorem diffuseColor_sim {L L' : List Sphere} (hL : List.Forall₂ SphereSim L L')
    {ns ns' : Sphere} (hns : SphereSim ns ns') (hp hn : Vec3) :
    diffuseColor L ns hp hn = diffuseColor L' ns' hp hn := by
  unfold diffuseColor
  have haux : ∀ {m m' : List Sphere}, List.Forall₂ SphereSim m m' →
      ∀ (n : ℕ) (acc : Vec3),
      (List.enumFrom n m).foldl (diffuseLight L ns hp hn) acc =
      (List.enumFrom n m').foldl (diffuseLight L' ns' hp hn) acc := by
    intro m m' hmm
    induction hmm with
    | nil => intro n acc; rfl
    | cons hst _ ih =>
      intro n acc
      simp only [List.enumFrom, List.foldl_cons]
      rw [diffuseLight_sim hL hns hp hn acc hst n]
      exact ih (n + 1) _
  have := haux hL 0 (Vec3.new_uniform 0)
  simpa [List.enum] using this



theorem trace_sim_aux :
    ∀ (n depth : ℕ), MAX_RAY_DEPTH - depth ≤ n →
      ∀ (ray : Ray) {l l' : List Sphere}, List.Forall₂ SphereSim l l' →
        trace ray l depth = trace ray l' depth := by
  intro n
  induction n with
  | zero =>
    intro depth hd ray l l' h
    have hdep : ¬ (depth < MAX_RAY_DEPTH) := by omega
    rw [trace.eq_def ray l depth, trace.eq_def ray l' depth]
    have hopt := traceNear_sim ray h
    cases h1 : traceNear ray l with
    | none =>
      cases h2 : traceNear ray l' with
      | none => rfl
      | some q => rw [h1, h2] at hopt; exact hopt.elim
    | some p =>
      cases h2 : traceNear ray l' with
      | none => rw [h1, h2] at hopt; exact hopt.elim
      | some q =>
        obtain ⟨t, ns⟩ := p
        obtain ⟨t', ns'⟩ := q
        rw [h1, h2] at hopt
        obtain ⟨hteq, hsim⟩ := hopt
        subst hteq
        dsimp only
        rw [dif_neg (fun hcnd => hdep hcnd.1), dif_neg (fun hcnd => hdep hcnd.1)]
        rw [hsim.1, hsim.2.2.2.1, diffuseColor_sim h hsim]
  | succ n ih =>
    intro depth hd ray l l' h
    rw [trace.eq_def ray l depth, trace.eq_def ray l' depth]
    have hopt := traceNear_sim ray h
    cases h1 : traceNear ray l with
    | none =>
      cases h2 : traceNear ray l' with
      | none => rfl
      | some q => rw [h1, h2] at hopt; exact hopt.elim
    | some p =>
      cases h2 : traceNear ray l' with
      | none => rw [h1, h2] at hopt; exact hopt.elim
      | some q =>
        obtain ⟨t, ns⟩ := p
        obtain ⟨t', ns'⟩ := q
        rw [h1, h2] at hopt
        obtain ⟨hteq, hsim⟩ := hopt
        subst hteq
        dsimp only
        have ihr : ∀ r2 : Ray, trace r2 l (depth + 1) = trace r2 l' (depth + 1) :=
          fun r2 => ih (depth + 1) (by omega) r2 h
        by_cases hcnd : depth < MAX_RAY_DEPTH ∧
            (ns.transparency > 0 ∨ ns.reflection > 0)
        · have hcnd' : depth < MAX_RAY_DEPTH ∧
              (ns'.transparency > 0 ∨ ns'.reflection > 0) := by
            rw [← hsim.2.2.2.2.1, ← hsim.2.2.2.2.2]
            exact hcnd
          rw [dif_pos hcnd, dif_pos hcnd']
          simp only [hsim.1, hsim.2.2.1, hsim.2.2.2.1, hsim.2.2.2.2.1, ihr]
        · have hcnd' : ¬ (depth < MAX_RAY_DEPTH ∧
              (ns'.transparency > 0 ∨ ns'.reflection > 0)) := by
            rw [← hsim.2.2.2.2.1, ← hsim.2.2.2.2.2]
            exact hcnd
          rw [dif_neg hcnd, dif_neg hcnd']
          rw [hsim.1, hsim.2.2.2.1, diffuseColor_sim h hsim]

/-- C10: neither `intersect` nor `trace` reads the `radius` field — for
spheres (and pointwise-related scenes) that agree on every field except
`radius`, `intersect` returns identical results and `trace` identical
colors at every ray and depth. -/
theorem radius_never_read :
    (∀ (s t : Sphere), SphereSim s t →
      ∀ ray : Ray, s.intersect ray = t.intersect ray) ∧
    (∀ (l l' : List Sphere), List.Forall₂ SphereSim l l' →
      ∀ (ray : Ray) (depth : ℕ), trace ray l depth = trace ray l' depth) :=
  ⟨fun _ _ h ray => intersect_sim h ray,
   fun _ _ h ray depth => trace_sim_aux (MAX_RAY_DEPTH - depth) depth le_rfl ray h⟩

/-- Witness for C10: `sA` and `sA2` differ only in `radius` (1 vs 37),
yet intersect and trace agree on them. -/
theorem radius_never_read_witness :
    sA.radius ≠ sA2.radius ∧ SphereSim sA sA2 ∧
    sA.intersect cRay = sA2.intersect cRay ∧
    List.Forall₂ SphereSim [sA] [sA2] ∧
    trace cRay [sA] 0 = trace cRay [sA2] 0 := by
  have hsim : SphereSim sA sA2 := ⟨rfl, rfl, rfl, rfl, rfl, rfl⟩
  have hl : List.Forall₂ SphereSim [sA] [sA2] :=
    List.Forall₂.cons hsim List.Forall₂.nil
  exact ⟨by norm_num [sA, sA2], hsim, radius_never_read.1 sA sA2 hsim cRay,
    hl, radius_never_read.2 [sA] [sA2] hl cRay 0⟩

end
